import Mathlib

/-!
Verification development for the CASC client of wow.export
(`src/js/casc/casc-source.ts` and `src/js/casc/casc-source-remote.js`).

The JavaScript/TypeScript source is shallowly embedded in Lean:
  * `Map` objects become insertion-ordered association lists;
  * hex-string keys (CKey/EKey) are represented by their underlying byte
    sequences (`List Nat`), a bijective representation of the hex strings
    the source manipulates;
  * thrown `Error`s become `Except` errors with one constructor per
    distinct throw site;
  * byte buffers (`BufferWrapper`/`BLTEReader`) become a `Reader` record
    over a `List Nat` of bytes with an explicit offset.
-/

set_option autoImplicit false

namespace WowExport

/-- A CKey / EKey: the byte sequence underlying the hex string the source
stores in its maps. -/
abbrev HexKey := List Nat

/-- Modelled from the spec: the `ContentFlags` module is not under `src/`;
the spec only requires a designated "low violence" bit. The concrete bit
value is irrelevant to every claim. -/
def ContentFlags.LowViolence : Nat := 0x80

/-- Modelled from the spec: the "no name hash" content-flag bit used by the
modern root layout (`ContentFlags.NoNameHash` in the source, module not
under `src/`). -/
def ContentFlags.NoNameHash : Nat := 0x10000000

/-- A `(contentFlags, localeFlags)` pair pushed onto `this.rootTypes` per
root block (`casc-source.ts`, `rootTypes.push({ contentFlags, localeFlags })`). -/
structure RootType where
  contentFlags : Nat
  localeFlags : Nat
  deriving Repr, DecidableEq

/-- The lookup-relevant state of a `CASC` instance:
`locale`, `rootTypes`, `rootEntries` (fileDataID → Map rootTypeIdx → CKey),
`encodingSizes` and `encodingKeys` (CKey → size / EKey).
JS `Map`s are embedded as insertion-ordered association lists with unique
keys. -/
structure CASCState where
  locale : Nat
  rootTypes : List RootType
  rootEntries : List (Int × List (Nat × HexKey))
  encodingSizes : List (HexKey × Int)
  encodingKeys : List (HexKey × HexKey)
  deriving Repr

/-- The locale/content filter applied to `this.rootTypes[rootTypeIdx]` in
both `getValidRootEntries` and `getFile`:
`(rootType.localeFlags & this.locale) && ((rootType.contentFlags & ContentFlags.LowViolence) === 0)`.
An out-of-range index (which would fault in JS) qualifies nothing. -/
def rootTypeQualifies (rootTypes : List RootType) (locale : Nat) (idx : Nat) : Bool :=
  match rootTypes[idx]? with
  | some rootType =>
    (rootType.localeFlags &&& locale != 0) && (rootType.contentFlags &&& ContentFlags.LowViolence == 0)
  | none => false

/-- `CASC.getValidRootEntries`: collects every fileDataID one of whose
variants references a root type matching the active locale and not flagged
low-violence. -/
def getValidRootEntries (c : CASCState) : List Int :=
  (c.rootEntries.filter
    (fun entry => entry.2.any (fun v => rootTypeQualifies c.rootTypes c.locale v.1))).map (·.1)

/-- The three distinct throw sites of `CASC.getFile`, in resolution order:
`'fileDataID does not exist in root: ' + fileDataID`,
`'No root entry found for locale: ' + this.locale`,
`'No encoding entry found: ' + contentKey`. -/
inductive CascError where
  | fileDataIDNotInRoot (fileDataID : Int)
  | noRootEntryForLocale (locale : Nat)
  | noEncodingEntry (contentKey : HexKey)
  deriving Repr, DecidableEq

/-- The first-match scan of `getFile` over `root.entries()`: select the
first `[rootTypeIdx, key]` whose root type matches the locale filter. -/
def findContentKey (c : CASCState) (root : List (Nat × HexKey)) : Option HexKey :=
  (root.find? (fun v => rootTypeQualifies c.rootTypes c.locale v.1)).map (·.2)

/-- `CASC.getFile`: root lookup → locale-filtered variant selection →
encoding lookup. The base implementation returns the *encoding key*
(the source comment: "This underlying implementation returns the encoding
key rather than a data file, allowing CASCLocal and CASCRemote to
implement readers."). -/
def getFile (c : CASCState) (fileDataID : Int) : Except CascError HexKey :=
  match c.rootEntries.lookup fileDataID with
  | none => .error (.fileDataIDNotInRoot fileDataID)
  | some root =>
    match findContentKey c root with
    | none => .error (.noRootEntryForLocale c.locale)
    | some contentKey =>
      match c.encodingKeys.lookup contentKey with
      | none => .error (.noEncodingEntry contentKey)
      | some encodingKey => .ok encodingKey

/-- Keys of an association list are pairwise distinct — the `Map` invariant. -/
def NodupKeys {α β : Type} (l : List (α × β)) : Prop :=
  (l.map (·.1)).Nodup

instance {α β : Type} [DecidableEq α] (l : List (α × β)) : Decidable (NodupKeys l) := by
  unfold NodupKeys; infer_instance

/-- Modelled from the spec: `getFile`'s physical-byte retrieval and
BLTE decode are delegated to the Local/Remote variants (`BLTEReader` and
`getDataFile` are outside `src/`). This is one concrete such pipeline,
used to test the claim that `getFile` itself returns the decoded payload:
the decoded payload of a blob addressed by an encoding key is never the
encoding key itself in this model. -/
def examplePhysicalPayload (encodingKey : HexKey) : HexKey :=
  0 :: encodingKey

/-- A concrete loaded state: fileDataID 5 resolves through the root
(variant 0, root type 0 with matching locale) to content key `[1, 2]`,
and the encoding table maps `[1, 2]` to encoding key `[3, 4]`. -/
def exampleState : CASCState :=
  { locale := 1
    rootTypes := [⟨0, 1⟩]
    rootEntries := [(5, [(0, [1, 2])])]
    encodingSizes := [([1, 2], 100)]
    encodingKeys := [([1, 2], [3, 4])] }

end WowExport

namespace WowExport

/-- C4 helper: membership in `lookup` for association lists with distinct
keys. -/
theorem lookup_eq_some_iff_mem {α β : Type} [DecidableEq α]
    (l : List (α × β)) (hnd : NodupKeys l) (k : α) (v : β) :
    l.lookup k = some v ↔ (k, v) ∈ l := by
  induction l with
  | nil => simp [List.lookup]
  | cons hd tl ih =>
    unfold NodupKeys at hnd
    simp only [List.map_cons, List.nodup_cons] at hnd
    by_cases hk : k = hd.1
    · subst hk
      simp only [List.lookup, beq_self_eq_true, List.mem_cons]
      constructor
      · rintro h
        left
        cases hd
        simp_all
      · rintro (h | h)
        · cases hd; simp_all
        · exact absurd (List.mem_map_of_mem (·.1) h) (by simpa using hnd.1)
    · have hbeq : (k == hd.1) = false := by simp [hk]
      simp only [List.lookup, hbeq, List.mem_cons]
      rw [ih hnd.2]
      constructor
      · exact Or.inr
      · rintro (h | h)
        · cases hd; simp_all
        · exact h

/-- Characterization of the locale/content filter in terms of the flag
conditions the spec states. -/
theorem rootTypeQualifies_iff (rootTypes : List RootType) (locale : Nat) (idx : Nat) :
    rootTypeQualifies rootTypes locale idx = true ↔
      ∃ rootType, rootTypes[idx]? = some rootType ∧
        rootType.localeFlags &&& locale ≠ 0 ∧
        rootType.contentFlags &&& ContentFlags.LowViolence = 0 := by
  unfold rootTypeQualifies
  cases h : rootTypes[idx]? with
  | none => simp
  | some rootType =>
    simp only [Bool.and_eq_true, bne_iff_ne, ne_eq, beq_iff_eq]
    constructor
    · rintro ⟨h1, h2⟩
      exact ⟨rootType, rfl, h1, h2⟩
    · rintro ⟨rt, hrt, h1, h2⟩
      cases hrt
      exact ⟨h1, h2⟩

/-- C4: `getValidRootEntries` returns exactly the fileDataIDs one of whose
root-entry variants references a root type whose `localeFlags` intersect the
active locale and whose `contentFlags` do not contain the low-violence bit. -/
theorem c4_getValidRootEntries_exact (c : CASCState) (fileDataID : Int)
    (hnd : NodupKeys c.rootEntries) :
    fileDataID ∈ getValidRootEntries c ↔
      ∃ root, c.rootEntries.lookup fileDataID = some root ∧
        ∃ v ∈ root, ∃ rootType, c.rootTypes[v.1]? = some rootType ∧
          rootType.localeFlags &&& c.locale ≠ 0 ∧
          rootType.contentFlags &&& ContentFlags.LowViolence = 0 := by
  unfold getValidRootEntries
  rw [List.mem_map]
  constructor
  · rintro ⟨entry, hmem, hfst⟩
    rw [List.mem_filter] at hmem
    obtain ⟨hin, hany⟩ := hmem
    rw [List.any_eq_true] at hany
    obtain ⟨v, hv, hq⟩ := hany
    refine ⟨entry.2, ?_, v, hv, (rootTypeQualifies_iff _ _ _).1 hq⟩
    rw [lookup_eq_some_iff_mem _ hnd]
    rw [← hfst]
    cases entry
    exact hin
  · rintro ⟨root, hlk, v, hv, hq⟩
    refine ⟨(fileDataID, root), ?_, rfl⟩
    rw [List.mem_filter]
    refine ⟨(lookup_eq_some_iff_mem _ hnd _ _).1 hlk, ?_⟩
    rw [List.any_eq_true]
    exact ⟨v, hv, (rootTypeQualifies_iff _ _ _).2 hq⟩

/-- C4 witness: in the concrete loaded state, fileDataID 5 is listed because
variant 0 references root type 0, whose locale flags match. -/
theorem c4_witness : (5 : Int) ∈ getValidRootEntries exampleState :=
  (c4_getValidRootEntries_exact exampleState 5 (by decide)).2
    ⟨[(0, [1, 2])], by decide, (0, [1, 2]), by decide,
      ⟨0, 1⟩, by decide, by decide, by decide⟩

/-- C3: `getFile` fails with a distinguishable error at each resolution
stage: a missing root entry, no variant passing the locale/low-violence
filter, and a content key absent from the encoding table. -/
theorem c3_getFile_stage_errors (c : CASCState) (fileDataID : Int) :
    (c.rootEntries.lookup fileDataID = none →
      getFile c fileDataID = .error (.fileDataIDNotInRoot fileDataID)) ∧
    (∀ root, c.rootEntries.lookup fileDataID = some root →
      (∀ v ∈ root, rootTypeQualifies c.rootTypes c.locale v.1 = false) →
      getFile c fileDataID = .error (.noRootEntryForLocale c.locale)) ∧
    (∀ root contentKey, c.rootEntries.lookup fileDataID = some root →
      findContentKey c root = some contentKey →
      c.encodingKeys.lookup contentKey = none →
      getFile c fileDataID = .error (.noEncodingEntry contentKey)) := by
  refine ⟨?_, ?_, ?_⟩
  · intro h
    simp [getFile, h]
  · intro root hlk hnone
    have hf : findContentKey c root = none := by
      unfold findContentKey
      rw [Option.map_eq_none', List.find?_eq_none]
      intro v hv
      simp [hnone v hv]
    simp [getFile, hlk, hf]
  · intro root contentKey hlk hfind henc
    simp [getFile, hlk, hfind, henc]

/-- A loaded state exercising all three `getFile` failure stages: fileDataID
7 has no root entry; fileDataID 1 only references root type 0 whose locale
flags (2) do not intersect the active locale (1); fileDataID 2 resolves to
content key `[8]`, which the (empty) encoding table does not contain. -/
def exampleStateC3 : CASCState :=
  { locale := 1
    rootTypes := [⟨0, 2⟩, ⟨0, 1⟩]
    rootEntries := [(1, [(0, [9])]), (2, [(1, [8])])]
    encodingSizes := []
    encodingKeys := [] }

/-- C3 witness: the three stage errors observed on the concrete state. -/
theorem c3_witness :
    getFile exampleStateC3 7 = .error (.fileDataIDNotInRoot 7) ∧
    getFile exampleStateC3 1 = .error (.noRootEntryForLocale 1) ∧
    getFile exampleStateC3 2 = .error (.noEncodingEntry [8]) :=
  ⟨(c3_getFile_stage_errors exampleStateC3 7).1 (by decide),
   (c3_getFile_stage_errors exampleStateC3 1).2.1 [(0, [9])] (by decide) (by decide),
   (c3_getFile_stage_errors exampleStateC3 2).2.2 [(1, [8])] [8]
     (by decide) (by decide) (by decide)⟩

/-- C1 counterexample: in the concrete loaded state, `getFile` on
fileDataID 5 returns the *encoding key* `[3, 4]` reached by the
root→encoding resolution, not the BLTE-decoded payload of the physical
blob that key addresses — refuting the claim that the result equals the
decoded payload rather than an intermediate key. -/
theorem c1_counterexample :
    getFile exampleState 5 = Except.ok [3, 4] ∧
    getFile exampleState 5 ≠ Except.ok (examplePhysicalPayload [3, 4]) := by
  constructor
  · rfl
  · intro h
    have heq : ([3, 4] : HexKey) = examplePhysicalPayload [3, 4] := by
      have h' : Except.ok (ε := CascError) ([3, 4] : HexKey) =
          Except.ok (examplePhysicalPayload [3, 4]) := by
        rw [← h]
        rfl
      exact Except.ok.inj h'
    simp [examplePhysicalPayload] at heq

/-- C1 (amended): whenever the fileDataID resolves through the root table,
the locale filter and the encoding table, `getFile` returns the resolved
encoding key; fetching the physical blob and BLTE-decoding it are
delegated to the Local/Remote variants' readers. -/
theorem c1_getFile_returns_encoding_key (c : CASCState) (fileDataID : Int)
    (root : List (Nat × HexKey)) (contentKey encodingKey : HexKey)
    (hroot : c.rootEntries.lookup fileDataID = some root)
    (hck : findContentKey c root = some contentKey)
    (hek : c.encodingKeys.lookup contentKey = some encodingKey) :
    getFile c fileDataID = .ok encodingKey := by
  simp [getFile, hroot, hck, hek]

/-- C1 witness: the full resolution chain on the concrete loaded state. -/
theorem c1_witness : getFile exampleState 5 = .ok [3, 4] :=
  c1_getFile_returns_encoding_key exampleState 5 [(0, [1, 2])] [1, 2] [3, 4]
    (by decide) (by decide) (by decide)

end WowExport

namespace WowExport

/-- The sequentially awaited stages of `CASCRemote.load(buildIndex)`. -/
inductive LoadStage where
  | serverConfig
  | cdnHost
  | configs
  | archives
  | encoding
  | root
  | listfile
  deriving Repr, DecidableEq, BEq

/-- `CASCRemote.load` awaits, in source order: `loadServerConfig()`,
`resolveCDNHost()`, `loadConfigs()`, `loadArchives()`, `loadEncoding()`,
`loadRoot()`, `loadListfile()`. -/
def loadStages : List LoadStage :=
  [.serverConfig, .cdnHost, .configs, .archives, .encoding, .root, .listfile]

/-- Position of a stage in the sequential `load()` pipeline. -/
def stagePosition (s : LoadStage) : Nat :=
  loadStages.findIdx (· == s)

/-- C2 counterexample: the encoding table is NOT populated before the
archive indices — `loadArchives()` is awaited before `loadEncoding()`,
refuting the claimed configuration→encoding→root→archive order. -/
theorem c2_counterexample :
    ¬ (stagePosition .encoding < stagePosition .archives) := by
  decide

/-- C2 (amended): during `load()` the tables are populated strictly in the
order configuration → archive indices → encoding → root. -/
theorem c2_load_order :
    stagePosition .configs < stagePosition .archives ∧
    stagePosition .archives < stagePosition .encoding ∧
    stagePosition .encoding < stagePosition .root := by
  decide

/-- `CASCRemote.formatCDNKey`:
`key.substring(0, 2) + '/' + key.substring(2, 4) + '/' + key`. -/
def formatCDNKey (key : String) : String :=
  key.take 2 ++ "/" ++ (key.drop 2).take 2 ++ "/" ++ key

/-- C8: for every key of length at least 4, `formatCDNKey` produces the
first two characters, a slash, the next two characters, a slash, then the
whole key — independent of the key's content. -/
theorem c8_formatCDNKey_shards (key : String) (hlen : 4 ≤ key.length) :
    (formatCDNKey key).data =
      key.data.take 2 ++ '/' :: ((key.data.drop 2).take 2 ++ '/' :: key.data) := by
  simp [formatCDNKey, String.take_eq, String.drop_eq]

/-- C8 witness: the spec's example key. -/
theorem c8_witness :
    formatCDNKey "49299eae4e3a195953764bb4adb3c91f" =
      "49/29/49299eae4e3a195953764bb4adb3c91f" := by
  apply String.ext
  rw [c8_formatCDNKey_shards "49299eae4e3a195953764bb4adb3c91f" (by decide)]
  decide

/-- JS `String.prototype.split(' ')`: cut at every single space,
keeping empty segments. -/
def splitOnSpaceAux : List Char → List Char → List (List Char)
  | [], current => [current.reverse]
  | c :: rest, current =>
    if c = ' ' then current.reverse :: splitOnSpaceAux rest []
    else splitOnSpaceAux rest (c :: current)

/-- The host list of `resolveCDNHost`:
`this.serverConfig.Hosts.split(' ').map(e => 'http://' + e + '/')`. -/
def hostList (hostsField : String) : List String :=
  (splitOnSpaceAux hostsField.data []).map (fun e => "http://" ++ String.mk e ++ "/")

/-- One settled ping callback acting on the shared `bestHost` variable:
a successful ping replaces the best candidate when strictly faster
(`ping < bestHost.ping`); a failed ping leaves it unchanged (the `catch`
branch only logs). -/
def updateBestHost (best : Option (String × Nat)) (host : String) (ping : Option Nat) :
    Option (String × Nat) :=
  match ping with
  | none => best
  | some p =>
    match best with
    | none => some (host, p)
    | some b => if p < b.2 then some (host, p) else some b

/-- `CASCRemote.resolveCDNHost`: ping every host of the space-delimited
list, wait for every ping to settle (`Promise.allSettled`), and select the
accumulated best host; with no successful ping, fail. The ping of each
host is modelled by the function `pingOf` (`none` = the ping rejected). -/
def resolveCDNHost (hostsField : String) (pingOf : String → Option Nat) :
    Except String (String × Nat) :=
  match (hostList hostsField).foldl (fun best host => updateBestHost best host (pingOf host)) none with
  | none => .error "Unable to resolve a CDN host."
  | some bestHost => .ok bestHost

theorem updateBestHost_ping_none (best : Option (String × Nat)) (host : String) :
    updateBestHost best host none = best := rfl

theorem updateBestHost_none (host : String) (p : Nat) :
    updateBestHost none host (some p) = some (host, p) := rfl

theorem updateBestHost_some (a : String × Nat) (host : String) (p : Nat) :
    updateBestHost (some a) host (some p) = if p < a.2 then some (host, p) else some a := rfl

/-- The fold of ping callbacks: a `some` outcome is either the starting
candidate or a pinged host, its latency is a lower bound for the starting
candidate and every successful ping; a `none` outcome means the start was
`none` and every ping failed. -/
theorem foldl_updateBestHost_spec (pingOf : String → Option Nat) :
    ∀ (hosts : List String) (acc : Option (String × Nat)),
      (∀ b, hosts.foldl (fun best host => updateBestHost best host (pingOf host)) acc = some b →
        (acc = some b ∨ (b.1 ∈ hosts ∧ pingOf b.1 = some b.2)) ∧
        (∀ a, acc = some a → b.2 ≤ a.2) ∧
        (∀ h ∈ hosts, ∀ p, pingOf h = some p → b.2 ≤ p)) ∧
      (hosts.foldl (fun best host => updateBestHost best host (pingOf host)) acc = none →
        acc = none ∧ ∀ h ∈ hosts, pingOf h = none) := by
  intro hosts
  induction hosts with
  | nil =>
    intro acc
    constructor
    · intro b hfold
      simp only [List.foldl_nil] at hfold
      refine ⟨Or.inl hfold, ?_, by simp⟩
      intro a hacc
      rw [hfold] at hacc
      cases hacc
      exact le_refl _
    · intro hfold
      simp only [List.foldl_nil] at hfold
      exact ⟨hfold, by simp⟩
  | cons host rest ih =>
    intro acc
    constructor
    · intro b hfold
      simp only [List.foldl_cons] at hfold
      obtain ⟨hsrc, hbound, hpings⟩ := (ih (updateBestHost acc host (pingOf host))).1 b hfold
      refine ⟨?_, ?_, ?_⟩
      · rcases hsrc with hsrc | hsrc
        · cases hping : pingOf host with
          | none =>
            rw [hping, updateBestHost_ping_none] at hsrc
            exact Or.inl hsrc
          | some p =>
            cases acc with
            | none =>
              rw [hping, updateBestHost_none] at hsrc
              cases hsrc
              exact Or.inr ⟨List.mem_cons_self _ _, hping⟩
            | some a =>
              rw [hping, updateBestHost_some] at hsrc
              by_cases hlt : p < a.2
              · rw [if_pos hlt] at hsrc
                cases hsrc
                exact Or.inr ⟨List.mem_cons_self _ _, hping⟩
              · rw [if_neg hlt] at hsrc
                exact Or.inl hsrc
        · exact Or.inr ⟨List.mem_cons_of_mem _ hsrc.1, hsrc.2⟩
      · intro a hacc
        subst hacc
        cases hping : pingOf host with
        | none => exact hbound a (by rw [hping, updateBestHost_ping_none])
        | some p =>
          by_cases hlt : p < a.2
          · have h1 := hbound (host, p) (by rw [hping, updateBestHost_some, if_pos hlt])
            simp only at h1
            omega
          · exact hbound a (by rw [hping, updateBestHost_some, if_neg hlt])
      · intro h hh p hp
        rcases List.mem_cons.1 hh with hh | hh
        · subst hh
          cases acc with
          | none => exact hbound (h, p) (by rw [hp, updateBestHost_none])
          | some a =>
            by_cases hlt : p < a.2
            · exact hbound (h, p) (by rw [hp, updateBestHost_some, if_pos hlt])
            · have h1 := hbound a (by rw [hp, updateBestHost_some, if_neg hlt])
              omega
        · exact hpings h hh p hp
    · intro hfold
      simp only [List.foldl_cons] at hfold
      obtain ⟨hupd, hrest⟩ := (ih (updateBestHost acc host (pingOf host))).2 hfold
      cases hping : pingOf host with
      | none =>
        rw [hping, updateBestHost_ping_none] at hupd
        refine ⟨hupd, ?_⟩
        intro h hh
        rcases List.mem_cons.1 hh with hh | hh
        · subst hh
          exact hping
        · exact hrest h hh
      | some p =>
        exfalso
        cases acc with
        | none =>
          rw [hping, updateBestHost_none] at hupd
          cases hupd
        | some a =>
          rw [hping, updateBestHost_some] at hupd
          by_cases hlt : p < a.2
          · rw [if_pos hlt] at hupd
            cases hupd
          · rw [if_neg hlt] at hupd
            cases hupd

/-- C7: a resolved host was pinged successfully, its latency is minimal
among all successful pings of the host list; if every host's ping fails,
resolution raises the `Unable to resolve a CDN host.` error. -/
theorem c7_resolveCDNHost_minimal (hostsField : String) (pingOf : String → Option Nat) :
    (∀ host ping, resolveCDNHost hostsField pingOf = .ok (host, ping) →
      host ∈ hostList hostsField ∧ pingOf host = some ping ∧
      ∀ h ∈ hostList hostsField, ∀ p, pingOf h = some p → ping ≤ p) ∧
    ((∀ h ∈ hostList hostsField, pingOf h = none) →
      resolveCDNHost hostsField pingOf = .error "Unable to resolve a CDN host.") := by
  constructor
  · intro host ping hok
    unfold resolveCDNHost at hok
    cases hfold : (hostList hostsField).foldl
        (fun best h => updateBestHost best h (pingOf h)) none with
    | none => rw [hfold] at hok; cases hok
    | some b =>
      rw [hfold] at hok
      cases hok
      obtain ⟨hsrc, _, hmin⟩ := (foldl_updateBestHost_spec pingOf (hostList hostsField) none).1 _ hfold
      rcases hsrc with hsrc | hsrc
      · cases hsrc
      · exact ⟨hsrc.1, hsrc.2, hmin⟩
  · intro hfail
    unfold resolveCDNHost
    cases hfold : (hostList hostsField).foldl
        (fun best h => updateBestHost best h (pingOf h)) none with
    | none => rfl
    | some b =>
      obtain ⟨hsrc, _, _⟩ := (foldl_updateBestHost_spec pingOf (hostList hostsField) none).1 _ hfold
      rcases hsrc with hsrc | hsrc
      · cases hsrc
      · rw [hfail b.1 hsrc.1] at hsrc
        cases hsrc.2

/-- Latencies of the three simulated hosts of the spec's host-resolution
test: 50ms, 10ms, 80ms. -/
def examplePings (host : String) : Option Nat :=
  if host = "http://a/" then some 50
  else if host = "http://b/" then some 10
  else if host = "http://c/" then some 80
  else none

/-- C7 witness: with hosts `a b c` pinging 50/10/80, resolution selects the
10ms host and that latency bounds every successful ping; with every ping
failing, resolution errors. -/
theorem c7_witness :
    ("http://b/" ∈ hostList "a b c" ∧ examplePings "http://b/" = some 10 ∧
      ∀ h ∈ hostList "a b c", ∀ p, examplePings h = some p → 10 ≤ p) ∧
    resolveCDNHost "a b c" (fun _ => none) = .error "Unable to resolve a CDN host." :=
  ⟨(c7_resolveCDNHost_minimal "a b c" examplePings).1 "http://b/" 10 (by rfl),
   (c7_resolveCDNHost_minimal "a b c" (fun _ => none)).2 (fun _ _ => rfl)⟩

end WowExport

namespace WowExport

/-- JS `Map.set` / overwriting file write on an association list: replace
the value of an existing key in place, otherwise append the new binding. -/
def mapSet {α β : Type} [BEq α] : List (α × β) → α → β → List (α × β)
  | [], k, v => [(k, v)]
  | (k', v') :: rest, k, v =>
    if k' == k then (k', v) :: rest else (k', v') :: mapSet rest k v

theorem lookup_mapSet_self {α β : Type} [BEq α] [LawfulBEq α]
    (m : List (α × β)) (k : α) (v : β) :
    (mapSet m k v).lookup k = some v := by
  induction m with
  | nil => simp [mapSet, List.lookup]
  | cons hd tl ih =>
    obtain ⟨k', v'⟩ := hd
    by_cases hk : k' = k
    · subst hk
      simp [mapSet, List.lookup]
    · have h1 : (k' == k) = false := beq_eq_false_iff_ne.2 hk
      have h2 : (k == k') = false := beq_eq_false_iff_ne.2 (fun h => hk h.symm)
      simp [mapSet, h1, List.lookup, h2, ih]

/-- The environment of a `CASCRemote` instance: the archive-index cache
directory contents (cache path → raw bytes) and the log of CDN data
requests issued, in order. -/
structure RemoteEnv where
  cache : List (String × List Nat)
  requests : List String
  deriving Repr, DecidableEq

/-- `CASCRemote.getDataFile(file)`: download `this.host + 'data/' + file`.
The network is a deterministic byte source `net`; every download is
recorded in the request log. -/
def getDataFile (host : String) (net : String → List Nat) (file : String)
    (env : RemoteEnv) : List Nat × RemoteEnv :=
  (net (host ++ "data/" ++ file),
   { env with requests := env.requests ++ [host ++ "data/" ++ file] })

/-- `CASCRemote.getArchiveIndex(key)`: try the cache file
`<ARCHIVE_INDEXES>/<key>.index`; on miss, download
`formatCDNKey(key) + '.index'` and persist the raw bytes to the cache path
before parsing. `parseArchiveIndex` is not under `src/`, so the parse of the
raw bytes is abstracted as the function `parse`. -/
def getArchiveIndex {α : Type} (parse : List Nat → α) (host : String)
    (net : String → List Nat) (cacheDir : String) (key : String)
    (env : RemoteEnv) : α × RemoteEnv :=
  let cdnKey := formatCDNKey key ++ ".index"
  let cachePath := cacheDir ++ "/" ++ key ++ ".index"
  match env.cache.lookup cachePath with
  | some data => (parse data, env)
  | none =>
    let fetched := getDataFile host net cdnKey env
    let env' := { fetched.2 with cache := mapSet fetched.2.cache cachePath fetched.1 }
    (parse fetched.1, env')

/-- C9: on a cache miss, `getArchiveIndex` downloads the index (exactly one
request, for the sharded CDN key) and persists the bytes, and a second call
on the resulting environment is the identity on the environment — it issues
no network request and returns the same parsed entries. -/
theorem c9_getArchiveIndex_cache_idempotent {α : Type} (parse : List Nat → α)
    (host : String) (net : String → List Nat) (cacheDir key : String)
    (env : RemoteEnv)
    (hmiss : env.cache.lookup (cacheDir ++ "/" ++ key ++ ".index") = none) :
    (getArchiveIndex parse host net cacheDir key env).2.requests =
      env.requests ++ [host ++ "data/" ++ (formatCDNKey key ++ ".index")] ∧
    getArchiveIndex parse host net cacheDir key
        (getArchiveIndex parse host net cacheDir key env).2 =
      getArchiveIndex parse host net cacheDir key env := by
  simp only [getArchiveIndex, hmiss]
  refine ⟨rfl, ?_⟩
  rw [lookup_mapSet_self]

/-- C9 witness: a concrete first fetch into an empty cache followed by a
second call served from the cache. -/
theorem c9_witness :
    (getArchiveIndex (fun l => l) "http://h/" (fun _ => [1, 2, 3]) "cache" "abcd"
        ⟨[], []⟩).2.requests =
      [] ++ ["http://h/" ++ "data/" ++ (formatCDNKey "abcd" ++ ".index")] ∧
    getArchiveIndex (fun l => l) "http://h/" (fun _ => [1, 2, 3]) "cache" "abcd"
        (getArchiveIndex (fun l => l) "http://h/" (fun _ => [1, 2, 3]) "cache" "abcd"
          ⟨[], []⟩).2 =
      getArchiveIndex (fun l => l) "http://h/" (fun _ => [1, 2, 3]) "cache" "abcd"
        ⟨[], []⟩ :=
  c9_getArchiveIndex_cache_idempotent (fun l => l) "http://h/" (fun _ => [1, 2, 3])
    "cache" "abcd" ⟨[], []⟩ rfl

end WowExport

namespace WowExport

/-- One row of a parsed version config (`VersionConfig`), keyed by
`Region`; `Product` is attached by `getVersionConfig`, `VersionsName` is
used by `getProductList`. -/
structure VersionEntry where
  regionTag : String
  productTag : String
  versionsName : String
  deriving Repr, DecidableEq

/-- One branch outcome of `Promise.allSettled`. -/
inductive Settled (α : Type) where
  | fulfilled (value : α)
  | rejected
  deriving Repr

/-- The build-collection loop of `CASCRemote.init`: for every fulfilled
version-config request, push `result.value.find(e => e.Region === this.region)`
onto `this.builds` — `none` models the JS `undefined` produced by a failed
`find`; rejected requests push nothing. -/
def initBuilds (region : String) (results : List (Settled (List VersionEntry))) :
    List (Option VersionEntry) :=
  results.foldl
    (fun builds result =>
      match result with
      | .fulfilled config => builds ++ [config.find? (fun e => e.regionTag == region)]
      | .rejected => builds)
    []

/-- The per-element body of the `getProductList` loop: format
`util.format('%s %s', PRODUCTS[entry.Product], entry.VersionsName)` and
push it. The source reads `entry.Product` without any undefined guard, so
an `undefined` build (`none`) is a TypeError, modelled as an error result
that aborts the loop. -/
def getProductListStep (productTitle : String → String)
    (acc : Except String (List String)) (build : Option VersionEntry) :
    Except String (List String) :=
  match acc, build with
  | .error e, _ => .error e
  | .ok products, some entry =>
    .ok (products ++ [productTitle entry.productTag ++ " " ++ entry.versionsName])
  | .ok _, none => .error "TypeError: cannot read properties of undefined"

/-- `CASCRemote.getProductList`: iterate over `this.builds` and format each
entry. `productTitle` models the `constants.PRODUCTS` name table. -/
def getProductList (productTitle : String → String)
    (builds : List (Option VersionEntry)) : Except String (List String) :=
  builds.foldl (getProductListStep productTitle) (.ok [])

theorem getProductListStep_error_sticky (productTitle : String → String)
    (builds : List (Option VersionEntry)) (e : String) :
    builds.foldl (getProductListStep productTitle) (.error e) = .error e := by
  induction builds with
  | nil => rfl
  | cons hd tl ih =>
    cases hd <;> simpa [getProductListStep] using ih

theorem getProductList_foldl_none (productTitle : String → String) :
    ∀ (builds : List (Option VersionEntry)), none ∈ builds →
      ∀ acc : List String,
        builds.foldl (getProductListStep productTitle) (.ok acc) =
          .error "TypeError: cannot read properties of undefined" := by
  intro builds
  induction builds with
  | nil =>
    intro h
    cases h
  | cons hd tl ih =>
    intro hmem acc
    rcases List.mem_cons.1 hmem with h | h
    · subst h
      simp only [List.foldl_cons]
      exact getProductListStep_error_sticky productTitle tl _
    · cases hd with
      | none =>
        simp only [List.foldl_cons]
        exact getProductListStep_error_sticky productTitle tl _
      | some entry =>
        simp only [List.foldl_cons]
        exact ih h _

/-- C10: a fulfilled version config with no entry for the client's region
still appends an element to the builds list — the `none`/`undefined` result
of the failed `find` — and `getProductList` dereferences any such entry
without a guard, failing instead of skipping it. -/
theorem c10_undefined_build_entries (region : String)
    (results : List (Settled (List VersionEntry))) (config : List VersionEntry)
    (productTitle : String → String) :
    ((∀ e ∈ config, e.regionTag ≠ region) →
      initBuilds region (results ++ [.fulfilled config]) =
        initBuilds region results ++ [none]) ∧
    (∀ builds : List (Option VersionEntry), none ∈ builds →
      getProductList productTitle builds =
        .error "TypeError: cannot read properties of undefined") := by
  constructor
  · intro hnone
    unfold initBuilds
    rw [List.foldl_append]
    simp only [List.foldl_cons, List.foldl_nil]
    have hfind : config.find? (fun e => e.regionTag == region) = none := by
      rw [List.find?_eq_none]
      intro e he
      simpa using hnone e he
    rw [hfind]
  · intro builds hmem
    unfold getProductList
    exact getProductList_foldl_none productTitle builds hmem []

/-- C10 witness: one fulfilled product whose config only lists region `us`
while the client region is `eu`: the builds list gains an undefined entry,
and listing the products fails on it. -/
theorem c10_witness :
    initBuilds "eu" ([] ++ [.fulfilled [⟨"us", "wow", "1.0"⟩]]) =
      initBuilds "eu" [] ++ [none] ∧
    getProductList (fun p => p) [none] =
      .error "TypeError: cannot read properties of undefined" :=
  ⟨(c10_undefined_build_entries "eu" [] [⟨"us", "wow", "1.0"⟩] (fun p => p)).1
     (by decide),
   (c10_undefined_build_entries "eu" [] [⟨"us", "wow", "1.0"⟩] (fun p => p)).2
     [none] (by simp)⟩

end WowExport

namespace WowExport

/-- `BufferWrapper`/`BLTEReader` read cursor over a byte stream. BLTE
decoding itself (module `blte-reader`, outside `src/`) is the identity on
the already-decoded streams the parser claims construct. Reads past the
end of the buffer yield zero bytes; the well-formed inputs of the claims
stay in bounds. -/
structure Reader where
  data : List Nat
  offset : Nat
  deriving Repr, DecidableEq

namespace Reader

/-- Byte at relative position `i` from the cursor. -/
def byte (r : Reader) (i : Nat) : Nat :=
  r.data.getD (r.offset + i) 0

/-- `BufferWrapper.move(n)`. -/
def move (r : Reader) (n : Nat) : Reader :=
  { r with offset := r.offset + n }

/-- `BufferWrapper.seek(pos)`. -/
def seek (r : Reader) (pos : Nat) : Reader :=
  { r with offset := pos }

/-- `BufferWrapper.remainingBytes`. -/
def remainingBytes (r : Reader) : Nat :=
  r.data.length - r.offset

def readUInt8 (r : Reader) : Nat × Reader :=
  (r.byte 0, r.move 1)

def readUInt16 (r : Reader) : Nat × Reader :=
  (r.byte 0 + 0x100 * r.byte 1, r.move 2)

def readUInt32 (r : Reader) : Nat × Reader :=
  (r.byte 0 + 0x100 * r.byte 1 + 0x10000 * r.byte 2 + 0x1000000 * r.byte 3, r.move 4)

/-- Signed little-endian 32-bit read (two's complement). -/
def readInt32 (r : Reader) : Int × Reader :=
  let u := r.byte 0 + 0x100 * r.byte 1 + 0x10000 * r.byte 2 + 0x1000000 * r.byte 3
  (if u < 0x80000000 then (u : Int) else (u : Int) - 0x100000000, r.move 4)

/-- Signed big-endian 16-bit read. -/
def readInt16BE (r : Reader) : Int × Reader :=
  let u := 0x100 * r.byte 0 + r.byte 1
  (if u < 0x8000 then (u : Int) else (u : Int) - 0x10000, r.move 2)

/-- Signed big-endian 32-bit read. -/
def readInt32BE (r : Reader) : Int × Reader :=
  let u := 0x1000000 * r.byte 0 + 0x10000 * r.byte 1 + 0x100 * r.byte 2 + r.byte 3
  (if u < 0x80000000 then (u : Int) else (u : Int) - 0x100000000, r.move 4)

/-- Signed big-endian 40-bit read (`readInt40BE`), used for encoding-entry
sizes. -/
def readInt40BE (r : Reader) : Int × Reader :=
  let u := 0x100000000 * r.byte 0 + 0x1000000 * r.byte 1 + 0x10000 * r.byte 2 +
    0x100 * r.byte 3 + r.byte 4
  (if u < 0x8000000000 then (u : Int) else (u : Int) - 0x10000000000, r.move 5)

/-- `readString(n)` / `readHexString(n)`: the `n` raw bytes under the
cursor (the hex string is represented by its byte sequence). -/
def readHexString (r : Reader) (n : Nat) : HexKey × Reader :=
  ((r.data.drop r.offset).take n, r.move n)

end Reader

/-- `ROOT_MAGIC = 0x4D465354` (`MFST`). -/
def ROOT_MAGIC : Nat := 0x4D465354

/-- The delta-decoded fileDataID loop shared by both root layouts:
`nextID = fileDataID + readInt32(); store nextID; fileDataID = nextID + 1`. -/
def readDeltaFileDataIDs (count : Nat) (fileDataID : Int) (r : Reader) :
    List Int × Reader :=
  match count with
  | 0 => ([], r)
  | count + 1 =>
    let read := r.readInt32
    let nextID := fileDataID + read.1
    let rest := readDeltaFileDataIDs count (nextID + 1) read.2
    (nextID :: rest.1, rest.2)

/-- The modern layout's content-key loop: one 16-byte key per fileDataID. -/
def readBlockContentKeys (fileDataIDs : List Int) (r : Reader) :
    List (Int × HexKey) × Reader :=
  match fileDataIDs with
  | [] => ([], r)
  | fileDataID :: rest =>
    let read := r.readHexString 16
    let tail := readBlockContentKeys rest read.2
    ((fileDataID, read.1) :: tail.1, tail.2)

/-- The classic layout's record loop: one 16-byte key followed by an
unconditional 8-byte hash skip per fileDataID. -/
def readClassicRecords (fileDataIDs : List Int) (r : Reader) :
    List (Int × HexKey) × Reader :=
  match fileDataIDs with
  | [] => ([], r)
  | fileDataID :: rest =>
    let read := r.readHexString 16
    let tail := readClassicRecords rest (read.2.move 8)
    ((fileDataID, read.1) :: tail.1, tail.2)

/-- The per-block parse result: the block's flags and its
`(fileDataID, content key)` records. -/
structure RootBlock where
  contentFlags : Nat
  localeFlags : Nat
  records : List (Int × HexKey)
  deriving Repr, DecidableEq

/-- One block of the modern (8.2, `ROOT_MAGIC`) root layout:
`numRecords:u32, contentFlags:u32, localeFlags:u32`, `numRecords` delta
fileDataIDs, `numRecords` 16-byte content keys, then — unless
`allowNamelessFiles && (contentFlags & NoNameHash)` — a skip of
`8 * numRecords` bytes of name hashes. -/
def parseModernRootBlock (allowNamelessFiles : Bool) (r : Reader) :
    RootBlock × Reader :=
  let readNum := r.readUInt32
  let numRecords := readNum.1
  let readContent := readNum.2.readUInt32
  let contentFlags := readContent.1
  let readLocale := readContent.2.readUInt32
  let localeFlags := readLocale.1
  let ids := readDeltaFileDataIDs numRecords 0 readLocale.2
  let keys := readBlockContentKeys ids.1 ids.2
  let r' :=
    if allowNamelessFiles && (contentFlags &&& ContentFlags.NoNameHash != 0) then keys.2
    else keys.2.move (8 * numRecords)
  (⟨contentFlags, localeFlags, keys.1⟩, r')

/-- One block of the classic root layout: same header and delta
fileDataIDs, then per record a 16-byte key and an unconditional 8-byte
hash skip. -/
def parseClassicRootBlock (r : Reader) : RootBlock × Reader :=
  let readNum := r.readUInt32
  let readContent := readNum.2.readUInt32
  let readLocale := readContent.2.readUInt32
  let ids := readDeltaFileDataIDs readNum.1 0 readLocale.2
  let recs := readClassicRecords ids.1 ids.2
  (⟨readContent.1, readLocale.1, recs.1⟩, recs.2)

/-- Insertion of one record into `rootEntries`:
`entry = rootEntries.get(fileDataID) ?? new Map(); entry.set(rootTypes.length, key)`. -/
def insertRootRecord (entries : List (Int × List (Nat × HexKey))) (typeIdx : Nat)
    (fileDataID : Int) (key : HexKey) : List (Int × List (Nat × HexKey)) :=
  match entries.lookup fileDataID with
  | some entry => mapSet entries fileDataID (mapSet entry typeIdx key)
  | none => entries ++ [(fileDataID, [(typeIdx, key)])]

/-- Merge one parsed block into the CASC state: every record is tagged with
`rootTypes.length` *before* the block's root type is pushed. -/
def applyRootBlock (c : CASCState) (block : RootBlock) : CASCState :=
  { c with
    rootEntries := block.records.foldl
      (fun entries rec => insertRootRecord entries c.rootTypes.length rec.1 rec.2)
      c.rootEntries
    rootTypes := c.rootTypes ++ [⟨block.contentFlags, block.localeFlags⟩] }

/-- The `while (root.remainingBytes > 0)` loop of the modern layout,
fuel-bounded (each iteration consumes at least the 12 header bytes). -/
def parseModernRootLoop (fuel : Nat) (allowNamelessFiles : Bool) (c : CASCState)
    (r : Reader) : CASCState × Reader :=
  match fuel with
  | 0 => (c, r)
  | fuel + 1 =>
    if 0 < r.remainingBytes then
      let parsed := parseModernRootBlock allowNamelessFiles r
      parseModernRootLoop fuel allowNamelessFiles (applyRootBlock c parsed.1) parsed.2
    else (c, r)

/-- The classic layout's block loop. -/
def parseClassicRootLoop (fuel : Nat) (c : CASCState) (r : Reader) :
    CASCState × Reader :=
  match fuel with
  | 0 => (c, r)
  | fuel + 1 =>
    if 0 < r.remainingBytes then
      let parsed := parseClassicRootBlock r
      parseClassicRootLoop fuel (applyRootBlock c parsed.1) parsed.2
    else (c, r)

/-- `CASC.parseRootFile`: read the leading magic; on `ROOT_MAGIC` read
`totalFileCount`/`namedFileCount`, set
`allowNamelessFiles = totalFileCount !== namedFileCount` and run the modern
block loop; otherwise seek back to offset 0 and run the classic loop. -/
def parseRootFile (c : CASCState) (data : List Nat) : CASCState × Reader :=
  let root : Reader := ⟨data, 0⟩
  let readMagic := root.readUInt32
  if readMagic.1 = ROOT_MAGIC then
    let readTotal := readMagic.2.readUInt32
    let readNamed := readTotal.2.readUInt32
    let allowNamelessFiles := readTotal.1 != readNamed.1
    parseModernRootLoop data.length allowNamelessFiles c readNamed.2
  else
    parseClassicRootLoop data.length c (root.seek 0)

end WowExport

namespace WowExport

theorem readDeltaFileDataIDs_snd_offset :
    ∀ (count : Nat) (fileDataID : Int) (r : Reader),
      (readDeltaFileDataIDs count fileDataID r).2.offset = r.offset + 4 * count := by
  intro count
  induction count with
  | zero =>
    intro fileDataID r
    simp [readDeltaFileDataIDs]
  | succ k ih =>
    intro fileDataID r
    simp only [readDeltaFileDataIDs]
    rw [ih]
    have h : (r.readInt32).2.offset = r.offset + 4 := by
      simp [Reader.readInt32, Reader.move]
    rw [h]
    ring

theorem readDeltaFileDataIDs_fst_length :
    ∀ (count : Nat) (fileDataID : Int) (r : Reader),
      (readDeltaFileDataIDs count fileDataID r).1.length = count := by
  intro count
  induction count with
  | zero =>
    intro fileDataID r
    simp [readDeltaFileDataIDs]
  | succ k ih =>
    intro fileDataID r
    simp only [readDeltaFileDataIDs, List.length_cons]
    rw [ih]

theorem readBlockContentKeys_snd_offset :
    ∀ (fileDataIDs : List Int) (r : Reader),
      (readBlockContentKeys fileDataIDs r).2.offset =
        r.offset + 16 * fileDataIDs.length := by
  intro fileDataIDs
  induction fileDataIDs with
  | nil =>
    intro r
    simp [readBlockContentKeys]
  | cons fileDataID rest ih =>
    intro r
    simp only [readBlockContentKeys, List.length_cons]
    rw [ih]
    have h : (r.readHexString 16).2.offset = r.offset + 16 := by
      simp [Reader.readHexString, Reader.move]
    rw [h]
    ring

/-- The cursor right after the content keys of a modern block read from `r`. -/
theorem modernBlock_keys_offset (r : Reader) (numRecords : Nat)
    (hn : (r.readUInt32).1 = numRecords) :
    (readBlockContentKeys
      (readDeltaFileDataIDs (r.readUInt32).1 0
        (((r.readUInt32).2.readUInt32).2.readUInt32).2).1
      (readDeltaFileDataIDs (r.readUInt32).1 0
        (((r.readUInt32).2.readUInt32).2.readUInt32).2).2).2.offset =
      r.offset + 12 + 20 * numRecords := by
  rw [readBlockContentKeys_snd_offset, readDeltaFileDataIDs_fst_length,
    readDeltaFileDataIDs_snd_offset, hn]
  have h : (((r.readUInt32).2.readUInt32).2.readUInt32).2.offset = r.offset + 12 := by
    simp [Reader.readUInt32, Reader.move]
  rw [h]
  ring

/-- C5 (amended): in a modern root block parsed under
`allowNamelessFiles = totalFileCount !== namedFileCount`, the trailing
8-byte-per-record name-hash area is left unconsumed exactly when the
no-name-hash content bit is set AND the counts differ; when
`totalFileCount == namedFileCount` the 8·numRecords bytes are consumed even
with the bit set. -/
theorem c5_name_hash_skip (totalFileCount namedFileCount : Nat) (r : Reader)
    (numRecords contentFlags : Nat)
    (hn : (r.readUInt32).1 = numRecords)
    (hcf : ((r.move 4).readUInt32).1 = contentFlags) :
    (totalFileCount ≠ namedFileCount →
      contentFlags &&& ContentFlags.NoNameHash ≠ 0 →
      (parseModernRootBlock (totalFileCount != namedFileCount) r).2.offset =
        r.offset + 12 + 20 * numRecords) ∧
    (totalFileCount = namedFileCount →
      (parseModernRootBlock (totalFileCount != namedFileCount) r).2.offset =
        r.offset + 12 + 20 * numRecords + 8 * numRecords) := by
  have hkeys := modernBlock_keys_offset r numRecords hn
  constructor
  · intro hne hbit
    have hcond : ((totalFileCount != namedFileCount) &&
        (((r.readUInt32).2.readUInt32).1 &&& ContentFlags.NoNameHash != 0)) = true := by
      have h1 : (totalFileCount != namedFileCount) = true := by simpa using hne
      have h2 : ((r.readUInt32).2.readUInt32).1 = contentFlags := hcf
      rw [h1, h2]
      simpa using hbit
    simp only [parseModernRootBlock, hcond, if_true]
    exact hkeys
  · intro heq
    subst heq
    have hcond : ((totalFileCount != totalFileCount) &&
        (((r.readUInt32).2.readUInt32).1 &&& ContentFlags.NoNameHash != 0)) = false := by
      simp
    simp only [parseModernRootBlock, hcond, Bool.false_eq_true, if_false, Reader.move]
    rw [hn] at hkeys ⊢
    omega

/-- One modern root block over concrete bytes: `numRecords = 1`,
`contentFlags = 0x10000000` (the no-name-hash bit), `localeFlags = 1`, one
zero delta, one 16-byte content key, followed by the 8-byte name hash
area. -/
def c5BlockData : List Nat :=
  [1, 0, 0, 0] ++ [0, 0, 0, 0x10] ++ [1, 0, 0, 0] ++ [0, 0, 0, 0] ++
    (List.range 16).map (· + 1) ++ List.replicate 8 0

/-- C5 counterexample: with `totalFileCount == namedFileCount` (both 1, so
`allowNamelessFiles` is `1 !== 1`) and the no-name-hash content bit set, the
cursor after the block sits at 40 — the 8·numRecords name-hash bytes were
consumed — not at 32, the position right after the last content key, as the
claim demands. -/
theorem c5_counterexample :
    (parseModernRootBlock ((1 : Nat) != 1) ⟨c5BlockData, 0⟩).1.contentFlags &&&
      ContentFlags.NoNameHash ≠ 0 ∧
    (parseModernRootBlock ((1 : Nat) != 1) ⟨c5BlockData, 0⟩).2.offset = 40 ∧
    40 ≠ 12 + 4 * 1 + 16 * 1 := by
  decide

/-- C5 witness: the same block under a header with
`totalFileCount = 2 ≠ 1 = namedFileCount` leaves the name-hash area
unconsumed: the cursor stops at 32, right after the content key. -/
theorem c5_witness :
    (parseModernRootBlock ((2 : Nat) != 1) ⟨c5BlockData, 0⟩).2.offset = 32 := by
  have h := (c5_name_hash_skip 2 1 ⟨c5BlockData, 0⟩ 1 0x10000000
    (by decide) (by decide)).1 (by decide) (by decide)
  simpa using h

end WowExport

namespace WowExport

/-- `ENC_MAGIC = 0x4E45` (`EN` read as a little-endian u16). -/
def ENC_MAGIC : Nat := 0x4E45

/-- The `while (encoding.offset < (pageStart + pagesStart))` entry loop of
one cKey page, fuel-bounded: read `keysCount:u8` (0 terminates), a 40-bit
big-endian size, a `hashSizeCKey`-byte content key and a
`hashSizeEKey`-byte first encoding key (recorded into the two tables), then
skip the `hashSizeEKey × (keysCount − 1)` alternate encoding keys. The
source's loop bound `pageStart + pagesStart` is kept verbatim. -/
def parsePageEntries (fuel : Nat) (hashSizeCKey hashSizeEKey : Nat) (bound : Nat)
    (sizes : List (HexKey × Int)) (keys : List (HexKey × HexKey)) (r : Reader) :
    (List (HexKey × Int) × List (HexKey × HexKey)) × Reader :=
  match fuel with
  | 0 => ((sizes, keys), r)
  | fuel + 1 =>
    if r.offset < bound then
      let readCount := r.readUInt8
      if readCount.1 = 0 then ((sizes, keys), readCount.2)
      else
        let readSize := readCount.2.readInt40BE
        let readCKey := readSize.2.readHexString hashSizeCKey
        let readEKey := readCKey.2.readHexString hashSizeEKey
        let r' := readEKey.2.move (hashSizeEKey * (readCount.1 - 1))
        parsePageEntries fuel hashSizeCKey hashSizeEKey bound
          (mapSet sizes readCKey.1 readSize.1) (mapSet keys readCKey.1 readEKey.1) r'
    else ((sizes, keys), r)

/-- `CASC.parseEncodingFile`: magic check, header fields (`hashSizeCKey`,
`hashSizeEKey`, `cKeyPageSize` in KiB ×1024, `cKeyPageCount`,
`specBlockSize`), skip of the spec block and the cKey page index table,
then the per-page entry loop; returns the `(encodingSizes, encodingKeys)`
tables. -/
def parseEncodingFile (data : List Nat) :
    Except String (List (HexKey × Int) × List (HexKey × HexKey)) :=
  let encoding : Reader := ⟨data, 0⟩
  let readMagic := encoding.readUInt16
  if readMagic.1 ≠ ENC_MAGIC then
    .error ("Invalid encoding magic: " ++ toString readMagic.1)
  else
    let r1 := readMagic.2.move 1
    let readHashCKey := r1.readUInt8
    let hashSizeCKey := readHashCKey.1
    let readHashEKey := readHashCKey.2.readUInt8
    let hashSizeEKey := readHashEKey.1
    let readPageSize := readHashEKey.2.readInt16BE
    let cKeyPageSize := (readPageSize.1 * 1024).toNat
    let r2 := readPageSize.2.move 2
    let readPageCount := r2.readInt32BE
    let cKeyPageCount := readPageCount.1.toNat
    let r3 := readPageCount.2.move 5
    let readSpec := r3.readInt32BE
    let specBlockSize := readSpec.1.toNat
    let r4 := readSpec.2.move (specBlockSize + cKeyPageCount * (hashSizeCKey + 16))
    let pagesStart := r4.offset
    let result := (List.range cKeyPageCount).foldl
      (fun acc i =>
        let pageStart := pagesStart + cKeyPageSize * i
        parsePageEntries (data.length + 1) hashSizeCKey hashSizeEKey
          (pageStart + pagesStart) acc.1.1 acc.1.2 (acc.2.seek pageStart))
      ((([], []) : List (HexKey × Int) × List (HexKey × HexKey)), r4)
    .ok result.1

/-- The content key of the synthetic encoding table's single entry. -/
def c6CKey : HexKey := (List.range 16).map (· + 1)

/-- The first (recorded) encoding key of the synthetic entry. -/
def c6EKey1 : HexKey := List.replicate 16 0xAA

/-- The second (skipped) encoding key of the synthetic entry. -/
def c6EKey2 : HexKey := List.replicate 16 0xBB

/-- A well-formed single-page encoding table: magic `EN`, version 1,
16-byte key sizes, one 1-KiB cKey page, empty spec block, a 32-byte page
index row, then one entry with `keyCount = 2`, 40-bit big-endian size
`0x0102030405`, one content key and two encoding keys. -/
def c6Data : List Nat :=
  [0x45, 0x4E, 1, 16, 16, 0, 1, 0, 0, 0, 0, 0, 1] ++ List.replicate 9 0 ++
    List.replicate 32 0 ++ [2, 1, 2, 3, 4, 5] ++ c6CKey ++ c6EKey1 ++ c6EKey2

/-- C6: parsing the synthetic single-page table yields exactly one row in
each table — the content key mapped to the exact reconstructed 40-bit size
`0x0102030405 = 4328719365` and to the *first* encoding key; the second
encoding key is skipped. -/
theorem c6_parseEncodingFile_single_entry :
    parseEncodingFile c6Data = .ok ([(c6CKey, 4328719365)], [(c6CKey, c6EKey1)]) := by
  rfl

end WowExport
